import Mathlib

/-
Verification development for the grinex-rate-service repository.

The Go source is shallowly embedded: prices are modelled as exact
rationals (the Go code parses decimal strings with strconv.ParseFloat and
compares them; on decimal inputs the float ordering agrees with the exact
rational ordering), time instants as rationals (seconds), and the
fallible operations as Except / Option values.  Network and database
effects are modelled by passing the decoded data (trade lists, probe
outcomes, stored rows) as explicit arguments.
-/

/-- Decimal digit test, as used by strconv.ParseFloat for the mantissa. -/
def isDigitChar (c : Char) : Bool :=
  '0' ≤ c ∧ c ≤ '9'

/-- Splits a leading run of decimal digits off a character list. -/
def takeDigits : List Char → (List Char × List Char)
  | [] => ([], [])
  | c :: cs =>
    if isDigitChar c then
      let p := takeDigits cs
      (c :: p.1, p.2)
    else
      ([], c :: cs)

/-- Numeric value of a digit string (most significant digit first). -/
def digitsToNat (ds : List Char) : Nat :=
  ds.foldl (fun acc c => acc * 10 + (c.toNat - 48)) 0

/-- Model of strconv.ParseFloat from the Go standard library, restricted
to decimal notation (optional sign, integer digits, optional fractional
digits, optional decimal exponent); the parsed value is kept as an exact
rational instead of being rounded to a binary float.  Returns none when
the string is not a number, matching the err result in Go. -/
def parsePrice (s : String) : Option ℚ :=
  let cs := s.toList
  let signAndRest : ℚ × List Char :=
    match cs with
    | '-' :: rest => (-1, rest)
    | '+' :: rest => (1, rest)
    | _ => (1, cs)
  let sign := signAndRest.1
  let p1 := takeDigits signAndRest.2
  let intDs := p1.1
  let p2 : List Char × List Char :=
    match p1.2 with
    | '.' :: rest => takeDigits rest
    | _ => ([], p1.2)
  let fracDs := p2.1
  if intDs.length + fracDs.length = 0 then
    none
  else
    let mant : ℚ := (digitsToNat intDs : ℚ) + (digitsToNat fracDs : ℚ) / ((10 : ℚ) ^ fracDs.length)
    match p2.2 with
    | [] => some (sign * mant)
    | e :: rest =>
      if e = 'e' ∨ e = 'E' then
        let esignAndRest : Int × List Char :=
          match rest with
          | '-' :: r => (-1, r)
          | '+' :: r => (1, r)
          | _ => (1, rest)
        let p3 := takeDigits esignAndRest.2
        if p3.1.length = 0 ∨ p3.2 ≠ [] then
          none
        else
          some (sign * mant * (10 : ℚ) ^ (esignAndRest.1 * (digitsToNat p3.1 : Int)))
      else
        none

/-- GrinexTrade from internal/service/grinex.go: one trade decoded from
the upstream JSON array. -/
structure GrinexTrade where
  id : Int
  hid : String
  price : String
  volume : String
  funds : String
  market : String
  createdAt : String
deriving Repr, DecidableEq, Inhabited

/-- The prices of the trades whose price field parses as a number, in
input order; this is the prices slice built by the loop in
calculatePricesFromTrades (unparseable entries are skipped). -/
def parsedPrices (trades : List GrinexTrade) : List ℚ :=
  trades.filterMap (fun t => parsePrice t.price)

/-- The descending order used by the Go code
(sort.Sort (sort.Reverse (sort.Float64Slice prices))). -/
def descRat : ℚ → ℚ → Prop := fun a b => b ≤ a

instance : DecidableRel descRat := fun a b => inferInstanceAs (Decidable (b ≤ a))

instance : IsTotal ℚ descRat := ⟨fun a b => le_total b a⟩

instance : IsTrans ℚ descRat := ⟨fun _ _ _ h1 h2 => le_trans h2 h1⟩

instance : IsAntisymm ℚ descRat := ⟨fun _ _ h1 h2 => le_antisymm h2 h1⟩

/-- Sorts a price list in descending order, the observable effect of the
sort.Sort call in calculatePricesFromTrades. -/
def sortDescRat (l : List ℚ) : List ℚ :=
  List.insertionSort descRat l

/-- The two error results of calculatePricesFromTrades:
noTrades is the error with message "no trades to calculate prices from",
noValidPrices the one with "no valid prices found in trades". -/
inductive CalcError where
  | noTrades
  | noValidPrices
deriving Repr, DecidableEq

/-- GrinexService.calculatePricesFromTrades: rejects an empty trade list,
collects the parseable prices, rejects an empty price list, sorts the
prices in descending order, takes the first as ask and the last as bid,
and collapses bid to ask when fewer than two prices survived. -/
def calculatePricesFromTrades (trades : List GrinexTrade) : Except CalcError (ℚ × ℚ) :=
  if trades.length = 0 then
    .error CalcError.noTrades
  else
    let prices := parsedPrices trades
    if prices.length = 0 then
      .error CalcError.noValidPrices
    else
      let sorted := sortDescRat prices
      let askPrice := sorted.headD 0
      let bidPrice := sorted.getLastD 0
      .ok (askPrice, if prices.length < 2 then askPrice else bidPrice)

theorem toNatDigit0 : ('0').toNat = 48 := rfl

theorem toNatDigit1 : ('1').toNat = 49 := rfl

theorem toNatDigit2 : ('2').toNat = 50 := rfl

theorem toNatDigit3 : ('3').toNat = 51 := rfl

theorem toNatDigit4 : ('4').toNat = 52 := rfl

theorem toNatDigit5 : ('5').toNat = 53 := rfl

theorem toNatDigit6 : ('6').toNat = 54 := rfl

theorem toNatDigit7 : ('7').toNat = 55 := rfl

theorem toNatDigit8 : ('8').toNat = 56 := rfl

theorem toNatDigit9 : ('9').toNat = 57 := rfl

theorem sortedDesc_head_ub (a : ℚ) (l : List ℚ)
    (h : List.Sorted descRat (a :: l)) : ∀ x ∈ a :: l, x ≤ a := by
  intro x hx
  rcases List.mem_cons.mp hx with rfl | hx2
  · exact le_refl _
  · exact List.rel_of_sorted_cons h x hx2

theorem sortedDesc_getLast_lb :
    ∀ (l : List ℚ) (hne : l ≠ []), List.Sorted descRat l →
      ∀ x ∈ l, l.getLast hne ≤ x := by
  intro l
  induction l with
  | nil => intro hne; exact absurd rfl hne
  | cons a t ih =>
    intro hne hs x hx
    cases t with
    | nil =>
      have hxa : x = a := by simpa using hx
      subst hxa
      simp [List.getLast]
    | cons b t2 =>
      have hne2 : b :: t2 ≠ [] := by simp
      have htail : List.Sorted descRat (b :: t2) := hs.of_cons
      have hlast : (a :: b :: t2).getLast hne = (b :: t2).getLast hne2 :=
        List.getLast_cons hne2
      rcases List.mem_cons.mp hx with rfl | hx2
      · have hb : (b :: t2).getLast hne2 ≤ b := ih hne2 htail b (by simp)
        have hab : descRat x b := List.rel_of_sorted_cons hs b (by simp)
        rw [hlast]
        exact le_trans hb hab
      · rw [hlast]
        exact ih hne2 htail x hx2

theorem parsedPrices_nil : parsedPrices [] = [] := rfl

theorem sortDescRat_perm (l : List ℚ) : List.Perm (sortDescRat l) l :=
  List.perm_insertionSort descRat l

theorem sortDescRat_sorted (l : List ℚ) : List.Sorted descRat (sortDescRat l) :=
  List.sorted_insertionSort descRat l

theorem getLastD_cons_eq_getLast {α : Type} (d a : α) (t : List α) :
    (a :: t).getLastD d = (a :: t).getLast (List.cons_ne_nil a t) := by
  induction t generalizing a with
  | nil => rfl
  | cons b t2 ih =>
    have h1 : (a :: b :: t2).getLastD d = (b :: t2).getLastD d := by
      simp [List.getLastD]
    have h2 : (a :: b :: t2).getLast (List.cons_ne_nil a (b :: t2)) =
        (b :: t2).getLast (List.cons_ne_nil b t2) := List.getLast_cons (List.cons_ne_nil b t2)
    rw [h1, h2, ih]

theorem calc_eq_of_sorted (trades : List GrinexTrade) (hne : trades ≠ [])
    (a : ℚ) (t : List ℚ) (hs : sortDescRat (parsedPrices trades) = a :: t) :
    calculatePricesFromTrades trades =
      .ok (a, if (parsedPrices trades).length < 2 then a
              else (a :: t).getLast (List.cons_ne_nil a t)) := by
  have hlen : trades.length ≠ 0 := by
    simpa using fun h => hne (List.length_eq_zero.mp h)
  have hplen : (parsedPrices trades).length ≠ 0 := by
    have := (sortDescRat_perm (parsedPrices trades)).length_eq
    rw [hs] at this
    simp only [List.length_cons] at this
    omega
  simp only [calculatePricesFromTrades, if_neg hlen, if_neg hplen, hs, List.headD_cons,
    getLastD_cons_eq_getLast]

/-- Sample trade used by the concrete witnesses; only the price and
created_at fields matter to the embedded logic. -/
def sampleTrade (p : String) (ts : String) : GrinexTrade :=
  { id := 0, hid := "", price := p, volume := "", funds := "", market := "usdtrub",
    createdAt := ts }

/-- C2: for every trade list with at least one trade whose price field
parses as a number, calculatePricesFromTrades succeeds, the returned ask
is the maximum of the parsed prices, the returned bid is the minimum of
the parsed prices, and ask is at least bid. -/
theorem calculatePricesFromTrades_max_min (trades : List GrinexTrade)
    (h : parsedPrices trades ≠ []) :
    ∃ ask bid, calculatePricesFromTrades trades = .ok (ask, bid) ∧
      ask ∈ parsedPrices trades ∧ bid ∈ parsedPrices trades ∧
      (∀ p ∈ parsedPrices trades, bid ≤ p ∧ p ≤ ask) ∧ bid ≤ ask := by
  have hne : trades ≠ [] := by
    intro h0
    subst h0
    exact h parsedPrices_nil
  have hsne : sortDescRat (parsedPrices trades) ≠ [] := by
    intro h0
    have hl := (sortDescRat_perm (parsedPrices trades)).length_eq
    rw [h0] at hl
    simp only [List.length_nil] at hl
    exact h (List.length_eq_zero.mp hl.symm)
  obtain ⟨a, t, hs⟩ : ∃ a t, sortDescRat (parsedPrices trades) = a :: t := by
    cases hcase : sortDescRat (parsedPrices trades) with
    | nil => exact absurd hcase hsne
    | cons a t => exact ⟨a, t, rfl⟩
  have hcalc := calc_eq_of_sorted trades hne a t hs
  have hsorted : List.Sorted descRat (a :: t) := by
    rw [← hs]
    exact sortDescRat_sorted _
  have hmem_iff : ∀ x : ℚ, x ∈ a :: t ↔ x ∈ parsedPrices trades := by
    intro x
    rw [← hs]
    exact (sortDescRat_perm _).mem_iff
  have ha_mem : a ∈ parsedPrices trades := (hmem_iff a).mp (by simp)
  have hub : ∀ p ∈ parsedPrices trades, p ≤ a := by
    intro p hp
    exact sortedDesc_head_ub a t hsorted p ((hmem_iff p).mpr hp)
  by_cases hlt : (parsedPrices trades).length < 2
  · have hlen1 : (parsedPrices trades).length = 1 := by
      have h0 : (parsedPrices trades).length ≠ 0 := fun h0 => h (List.length_eq_zero.mp h0)
      omega
    obtain ⟨q, hq⟩ := List.length_eq_one.mp hlen1
    refine ⟨a, a, ?_, ha_mem, ha_mem, ?_, le_refl a⟩
    · rw [hcalc, if_pos hlt]
    · intro p hp
      rw [hq] at hp
      have haq : a = q := by
        have h2 := ha_mem
        rw [hq] at h2
        simp at h2
        exact h2
      have hpq : p = q := by simpa using hp
      rw [hpq, haq]
      exact ⟨le_refl _, le_refl _⟩
  · have hlast_mem : (a :: t).getLast (List.cons_ne_nil a t) ∈ parsedPrices trades :=
      (hmem_iff _).mp (List.getLast_mem _)
    have hlb : ∀ p ∈ parsedPrices trades, (a :: t).getLast (List.cons_ne_nil a t) ≤ p := by
      intro p hp
      exact sortedDesc_getLast_lb (a :: t) (List.cons_ne_nil a t) hsorted p ((hmem_iff p).mpr hp)
    refine ⟨a, (a :: t).getLast (List.cons_ne_nil a t), ?_, ha_mem, hlast_mem, ?_,
      hub _ hlast_mem⟩
    · rw [hcalc, if_neg hlt]
    · intro p hp
      exact ⟨hlb p hp, hub p hp⟩

/-- Witness for C2 at the concrete trade list of the repository test
TestCalculatePricesFromTrades. -/
theorem calculatePricesFromTrades_max_min_witness :
    parsedPrices [sampleTrade "81.25" "", sampleTrade "81.20" "", sampleTrade "81.30" "",
      sampleTrade "81.15" ""] ≠ [] ∧
    ∃ ask bid,
      calculatePricesFromTrades [sampleTrade "81.25" "", sampleTrade "81.20" "",
        sampleTrade "81.30" "", sampleTrade "81.15" ""] = .ok (ask, bid) ∧
      ask ∈ parsedPrices [sampleTrade "81.25" "", sampleTrade "81.20" "",
        sampleTrade "81.30" "", sampleTrade "81.15" ""] ∧
      bid ∈ parsedPrices [sampleTrade "81.25" "", sampleTrade "81.20" "",
        sampleTrade "81.30" "", sampleTrade "81.15" ""] ∧
      (∀ p ∈ parsedPrices [sampleTrade "81.25" "", sampleTrade "81.20" "",
        sampleTrade "81.30" "", sampleTrade "81.15" ""], bid ≤ p ∧ p ≤ ask) ∧ bid ≤ ask := by
  refine ⟨?_, calculatePricesFromTrades_max_min _ ?_⟩ <;>
    simp +decide [parsedPrices, parsePrice, sampleTrade, takeDigits, isDigitChar, digitsToNat]

/-- C4: calculatePricesFromTrades fails with the empty-input error exactly
when given zero trades, fails with the no-valid-prices error exactly when
the trade list is non-empty but every price field fails to parse, and
succeeds in every other case. -/
theorem calculatePricesFromTrades_error_cases (trades : List GrinexTrade) :
    (calculatePricesFromTrades trades = .error CalcError.noTrades ↔ trades = []) ∧
    (calculatePricesFromTrades trades = .error CalcError.noValidPrices ↔
      trades ≠ [] ∧ ∀ t ∈ trades, parsePrice t.price = none) ∧
    ((∃ ab, calculatePricesFromTrades trades = .ok ab) ↔
      trades ≠ [] ∧ ∃ t ∈ trades, parsePrice t.price ≠ none) := by
  by_cases hne : trades = []
  · subst hne
    refine ⟨by simp [calculatePricesFromTrades], ?_, ?_⟩
    · simp [calculatePricesFromTrades]
    · simp [calculatePricesFromTrades]
  · have hlen : trades.length ≠ 0 := fun h0 => hne (List.length_eq_zero.mp h0)
    have hallnone : (parsedPrices trades = []) ↔ ∀ t ∈ trades, parsePrice t.price = none := by
      unfold parsedPrices
      exact List.filterMap_eq_nil_iff
    by_cases hp : parsedPrices trades = []
    · have hres : calculatePricesFromTrades trades = .error CalcError.noValidPrices := by
        unfold calculatePricesFromTrades
        rw [if_neg hlen]
        simp [hp]
      refine ⟨?_, ?_, ?_⟩
      · rw [hres]
        simp [hne]
      · rw [hres]
        simp only [true_iff]
        exact ⟨hne, hallnone.mp hp⟩
      · rw [hres]
        constructor
        · rintro ⟨ab, hab⟩
          exact absurd hab (by simp)
        · rintro ⟨-, t, ht, hmem⟩
          exact absurd (hallnone.mp hp t ht) hmem
    · have hsne : sortDescRat (parsedPrices trades) ≠ [] := by
        intro h0
        have hl := (sortDescRat_perm (parsedPrices trades)).length_eq
        rw [h0] at hl
        simp only [List.length_nil] at hl
        exact hp (List.length_eq_zero.mp hl.symm)
      obtain ⟨a, t, hs⟩ : ∃ a t, sortDescRat (parsedPrices trades) = a :: t := by
        cases hcase : sortDescRat (parsedPrices trades) with
        | nil => exact absurd hcase hsne
        | cons a t => exact ⟨a, t, rfl⟩
      have hres := calc_eq_of_sorted trades hne a t hs
      have hsome : ∃ t ∈ trades, parsePrice t.price ≠ none := by
        by_contra hcon
        push_neg at hcon
        have : ∀ t ∈ trades, parsePrice t.price = none := by
          intro t ht
          have := hcon t ht
          cases hval : parsePrice t.price with
          | none => rfl
          | some v => exact absurd hval (by simpa [hval] using this)
        exact hp (hallnone.mpr this)
      refine ⟨?_, ?_, ?_⟩
      · rw [hres]
        simp [hne]
      · rw [hres]
        constructor
        · intro hqq
          exact absurd hqq (by simp)
        · rintro ⟨-, hall⟩
          exact absurd (hallnone.mpr hall) hp
      · exact ⟨fun _ => ⟨hne, hsome⟩, fun _ => ⟨_, hres⟩⟩

/-- Witness for C4 at the empty list, a list with only an unparseable
price, and a list with one parseable price. -/
theorem calculatePricesFromTrades_error_cases_witness :
    calculatePricesFromTrades [] = .error CalcError.noTrades ∧
    calculatePricesFromTrades [sampleTrade "not-a-number" ""] =
      .error CalcError.noValidPrices ∧
    (∃ ab, calculatePricesFromTrades [sampleTrade "81.25" ""] = .ok ab) := by
  refine ⟨((calculatePricesFromTrades_error_cases []).1).mpr rfl, ?_, ?_⟩
  · refine ((calculatePricesFromTrades_error_cases [sampleTrade "not-a-number" ""]).2.1).mpr
      ⟨by simp, ?_⟩
    intro t ht
    have : t = sampleTrade "not-a-number" "" := by simpa using ht
    rw [this]
    simp +decide [parsePrice, sampleTrade, takeDigits, isDigitChar]
  · refine ((calculatePricesFromTrades_error_cases [sampleTrade "81.25" ""]).2.2).mpr
      ⟨by simp, sampleTrade "81.25" "", by simp, ?_⟩
    simp +decide [parsePrice, sampleTrade, takeDigits, isDigitChar]

/-- C7: when exactly one trade price parses as the number p, extraction
succeeds with ask and bid both equal to p. -/
theorem calculatePricesFromTrades_single_price (trades : List GrinexTrade) (p : ℚ)
    (h : parsedPrices trades = [p]) :
    calculatePricesFromTrades trades = .ok (p, p) := by
  have hne : trades ≠ [] := by
    intro h0
    subst h0
    rw [parsedPrices_nil] at h
    exact List.noConfusion h
  have hs : sortDescRat (parsedPrices trades) = [p] := by
    rw [h]
    rfl
  have hcalc := calc_eq_of_sorted trades hne p [] hs
  rw [hcalc]
  have hlt : (parsedPrices trades).length < 2 := by
    rw [h]
    simp
  rw [if_pos hlt]

/-- Witness for C7 at the list from the repository test
TestCalculatePricesFromTrades_InvalidPrice: the unparseable entry is
skipped and the single surviving price 81.25 becomes both ask and bid. -/
theorem calculatePricesFromTrades_single_price_witness :
    calculatePricesFromTrades [sampleTrade "invalid" "", sampleTrade "81.25" ""] =
      .ok (325/4, 325/4) := by
  refine calculatePricesFromTrades_single_price _ (325/4) ?_
  norm_num +decide [parsedPrices, List.filterMap_cons, List.filterMap_nil, parsePrice,
    sampleTrade, takeDigits, isDigitChar, digitsToNat, toNatDigit1, toNatDigit2, toNatDigit5,
    toNatDigit8]

/-- C6: the (ask, bid) result of calculatePricesFromTrades, including the
success or failure outcome, is invariant under every permutation of the
input trade list. -/
theorem calculatePricesFromTrades_perm_invariant (l1 l2 : List GrinexTrade)
    (h : List.Perm l1 l2) :
    calculatePricesFromTrades l1 = calculatePricesFromTrades l2 := by
  have hpp : List.Perm (parsedPrices l1) (parsedPrices l2) := by
    unfold parsedPrices
    exact h.filterMap _
  have hlen : l1.length = l2.length := h.length_eq
  have hplen : (parsedPrices l1).length = (parsedPrices l2).length := hpp.length_eq
  by_cases h0 : l1.length = 0
  · have h0b : l2.length = 0 := by omega
    unfold calculatePricesFromTrades
    rw [if_pos h0, if_pos h0b]
  · have h0b : l2.length ≠ 0 := by omega
    by_cases hq : (parsedPrices l1).length = 0
    · have hqb : (parsedPrices l2).length = 0 := by omega
      simp only [calculatePricesFromTrades, if_neg h0, if_neg h0b, hq, hqb, if_pos]
    · have hqb : (parsedPrices l2).length ≠ 0 := by omega
      have hsort : sortDescRat (parsedPrices l1) = sortDescRat (parsedPrices l2) := by
        apply List.eq_of_perm_of_sorted (r := descRat)
        · exact (sortDescRat_perm _).trans (hpp.trans (sortDescRat_perm _).symm)
        · exact sortDescRat_sorted _
        · exact sortDescRat_sorted _
      simp only [calculatePricesFromTrades, if_neg h0, if_neg h0b, if_neg hq, if_neg hqb,
        hsort, hplen]

/-- Witness for C6 at a two-element list and its transposition. -/
theorem calculatePricesFromTrades_perm_invariant_witness :
    calculatePricesFromTrades [sampleTrade "81.25" "", sampleTrade "81.30" ""] =
      calculatePricesFromTrades [sampleTrade "81.30" "", sampleTrade "81.25" ""] :=
  calculatePricesFromTrades_perm_invariant _ _ (List.Perm.swap _ _ _)

/-- Reads exactly n decimal digits, returning their value and the rest of
the input. -/
def readFixedDigits : Nat → Nat → List Char → Option (Nat × List Char)
  | 0, acc, cs => some (acc, cs)
  | n + 1, acc, cs =>
    match cs with
    | [] => none
    | c :: rest =>
      if isDigitChar c then
        readFixedDigits n (acc * 10 + (c.toNat - 48)) rest
      else
        none

/-- Consumes one expected character. -/
def expectChar (c : Char) : List Char → Option (List Char)
  | [] => none
  | x :: rest => if x = c then some rest else none

/-- Gregorian leap year rule, as in the Go time package. -/
def isLeapYear (y : Int) : Bool :=
  (y % 4 = 0 ∧ y % 100 ≠ 0) ∨ y % 400 = 0

/-- Number of days of month m (1 to 12) in year y. -/
def daysInMonth (y : Int) (m : Nat) : Nat :=
  if m = 1 ∨ m = 3 ∨ m = 5 ∨ m = 7 ∨ m = 8 ∨ m = 10 ∨ m = 12 then 31
  else if m = 4 ∨ m = 6 ∨ m = 9 ∨ m = 11 then 30
  else if isLeapYear y then 29 else 28

/-- Days between the given civil date and 1970-01-01 (proleptic
Gregorian), the standard days-from-civil computation. -/
def daysFromCivil (y : Int) (m d : Nat) : Int :=
  let yy : Int := if m ≤ 2 then y - 1 else y
  let era : Int := (if 0 ≤ yy then yy else yy - 399) / 400
  let yoe : Int := yy - era * 400
  let doy : Int := (153 * (if 2 < m then (m : Int) - 3 else (m : Int) + 9) + 2) / 5 + (d : Int) - 1
  let doe : Int := yoe * 365 + yoe / 4 - yoe / 100 + doy
  era * 146097 + doe - 719468

/-- Reads optional fractional seconds (a period or comma followed by at
least one digit), as accepted by Go time.Parse. -/
def readFrac (cs : List Char) : Option (ℚ × List Char) :=
  match cs with
  | c :: rest =>
    if c = '.' ∨ c = ',' then
      let p := takeDigits rest
      if p.1.length = 0 then none
      else some ((digitsToNat p.1 : ℚ) / (10 : ℚ) ^ p.1.length, p.2)
    else some (0, cs)
  | [] => some (0, cs)

/-- Reads the zone suffix, returning the offset east of UTC in minutes:
the single character Z, or a sign followed by HH:MM. -/
def readZone (cs : List Char) : Option Int :=
  match cs with
  | ['Z'] => some 0
  | c :: rest =>
    if c = '+' ∨ c = '-' then
      match readFixedDigits 2 0 rest with
      | none => none
      | some (oh, r2) =>
        match r2 with
        | ':' :: r3 =>
          match readFixedDigits 2 0 r3 with
          | none => none
          | some (om, r4) =>
            if r4 = [] ∧ oh ≤ 23 ∧ om ≤ 59 then
              some ((if c = '-' then -1 else 1) * ((oh : Int) * 60 + (om : Int)))
            else none
        | _ => none
    else none
  | [] => none

/-- Model of time.Parse with the time.RFC3339 layout from the Go standard
library: YYYY-MM-DDTHH:MM:SS with optional fractional seconds and a Z or
signed HH:MM zone, with field range validation; the result is the
absolute instant as rational seconds since the Unix epoch.  Returns none
exactly when Go returns a parse error. -/
def parseRFC3339 (s : String) : Option ℚ := do
  let (year, r1) ← readFixedDigits 4 0 s.toList
  let r2 ← expectChar '-' r1
  let (month, r3) ← readFixedDigits 2 0 r2
  let r4 ← expectChar '-' r3
  let (day, r5) ← readFixedDigits 2 0 r4
  let r6 ← expectChar 'T' r5
  let (hour, r7) ← readFixedDigits 2 0 r6
  let r8 ← expectChar ':' r7
  let (minute, r9) ← readFixedDigits 2 0 r8
  let r10 ← expectChar ':' r9
  let (second, r11) ← readFixedDigits 2 0 r10
  let (frac, r12) ← readFrac r11
  let offsetMinutes ← readZone r12
  if 1 ≤ month ∧ month ≤ 12 ∧ 1 ≤ day ∧ day ≤ daysInMonth (year : Int) month ∧
      hour ≤ 23 ∧ minute ≤ 59 ∧ second ≤ 59 then
    some (((daysFromCivil (year : Int) month day * 86400 + (hour : Int) * 3600
      + (minute : Int) * 60 + (second : Int) - offsetMinutes * 60 : Int) : ℚ) + frac)
  else
    none

/-- Rate from internal/service/grinex.go: the quote returned by
GetUSDTRate. -/
structure Rate where
  tradingPair : String
  askPrice : ℚ
  bidPrice : ℚ
  timestamp : ℚ
deriving Repr, DecidableEq

/-- Error results of the trade-processing tail of GetUSDTRate: the
no-trades check or a propagated calculation error. -/
inductive GetRateError where
  | noTradesData
  | calcFailed (e : CalcError)
deriving Repr, DecidableEq

/-- Trade-processing tail of GrinexService.GetUSDTRate (grinex.go lines
101 to 133).  The HTTP fetch and JSON decode are modelled by passing the
decoded trade list; now is the wall clock instant used by the time.Now
fallback.  On success the rate carries the fixed pair USDT/RUB, the
calculated ask and bid, and the parsed created_at of the trade at index
0, falling back to now when that string does not parse. -/
def getUSDTRateFromTrades (trades : List GrinexTrade) (now : ℚ) : Except GetRateError Rate :=
  if trades.length = 0 then
    .error GetRateError.noTradesData
  else
    match calculatePricesFromTrades trades with
    | .error e => .error (GetRateError.calcFailed e)
    | .ok (askPrice, bidPrice) =>
      let latestTrade := trades.headD default
      let timestamp :=
        match parseRFC3339 latestTrade.createdAt with
        | some ts => ts
        | none => now
      .ok { tradingPair := "USDT/RUB", askPrice := askPrice, bidPrice := bidPrice,
            timestamp := timestamp }

/-- Evaluation of the embedded GetUSDTRate tail on the concrete sample
trade of the repository test TestGetUSDTRate_Success (one trade, price
81.25, created_at 2025-07-28T21:22:14+03:00), used by the witnesses. -/
theorem getUSDTRate_eval_sample :
    getUSDTRateFromTrades [sampleTrade "81.25" "2025-07-28T21:22:14+03:00"] 42 =
      .ok { tradingPair := "USDT/RUB", askPrice := 325/4, bidPrice := 325/4,
            timestamp := 1753726934 } := by
  norm_num +decide [getUSDTRateFromTrades, calculatePricesFromTrades, parsedPrices,
    List.filterMap_cons, List.filterMap_nil, parsePrice, sortDescRat, List.insertionSort,
    List.orderedInsert, sampleTrade, takeDigits, isDigitChar, digitsToNat, parseRFC3339,
    readFixedDigits, expectChar, readFrac, readZone, daysInMonth, isLeapYear, daysFromCivil,
    toNatDigit0, toNatDigit1, toNatDigit2, toNatDigit3, toNatDigit4, toNatDigit5, toNatDigit7,
    toNatDigit8, toNatDigit9, Option.bind]

/-- Evaluation of the parser model on the created_at string of the sample
trade, used by the witness of C5. -/
theorem parseRFC3339_eval_sample :
    parseRFC3339 "2025-07-28T21:22:14+03:00" = some 1753726934 := by
  norm_num +decide [parseRFC3339, readFixedDigits, expectChar, readFrac, readZone, daysInMonth,
    isLeapYear, daysFromCivil, takeDigits, isDigitChar, digitsToNat, toNatDigit0, toNatDigit1,
    toNatDigit2, toNatDigit3, toNatDigit4, toNatDigit5, toNatDigit7, toNatDigit8, toNatDigit9,
    Option.bind]

/-- C5: for every non-empty trade list on which GetUSDTRate succeeds, the
timestamp of the resulting rate is the parsed created_at of the trade at
index 0 of the input, and the wall clock instant now is substituted when
that string does not parse. -/
theorem getUSDTRate_timestamp_from_head (t0 : GrinexTrade) (rest : List GrinexTrade)
    (now : ℚ) (r : Rate) (h : getUSDTRateFromTrades (t0 :: rest) now = .ok r) :
    (∀ ts, parseRFC3339 t0.createdAt = some ts → r.timestamp = ts) ∧
    (parseRFC3339 t0.createdAt = none → r.timestamp = now) := by
  have hlen : (t0 :: rest).length ≠ 0 := by simp
  unfold getUSDTRateFromTrades at h
  rw [if_neg hlen] at h
  cases hc : calculatePricesFromTrades (t0 :: rest) with
  | error e =>
    rw [hc] at h
    exact absurd h (by simp)
  | ok ab =>
    obtain ⟨a, b⟩ := ab
    rw [hc] at h
    simp only [List.headD_cons] at h
    cases hp : parseRFC3339 t0.createdAt with
    | some ts =>
      rw [hp] at h
      simp only [Except.ok.injEq] at h
      constructor
      · intro ts2 hts2
        cases hts2
        rw [← h]
      · intro hnone
        exact Option.noConfusion hnone
    | none =>
      rw [hp] at h
      simp only [Except.ok.injEq] at h
      constructor
      · intro ts2 hts2
        exact Option.noConfusion hts2
      · intro _
        rw [← h]

/-- Witness for C5 at the sample trade: the parsed created_at becomes the
timestamp of the returned rate. -/
theorem getUSDTRate_timestamp_from_head_witness :
    ({ tradingPair := "USDT/RUB", askPrice := 325/4, bidPrice := 325/4,
       timestamp := 1753726934 } : Rate).timestamp = 1753726934 :=
  (getUSDTRate_timestamp_from_head (sampleTrade "81.25" "2025-07-28T21:22:14+03:00") [] 42 _
    getUSDTRate_eval_sample).1 _ parseRFC3339_eval_sample

/-- C10: every rate returned by a successful GetUSDTRate carries the
fixed trading pair USDT/RUB, whatever the upstream trade list contains. -/
theorem getUSDTRate_fixed_pair (trades : List GrinexTrade) (now : ℚ) (r : Rate)
    (h : getUSDTRateFromTrades trades now = .ok r) :
    r.tradingPair = "USDT/RUB" := by
  unfold getUSDTRateFromTrades at h
  by_cases h0 : trades.length = 0
  · rw [if_pos h0] at h
    exact absurd h (by simp)
  · rw [if_neg h0] at h
    cases hc : calculatePricesFromTrades trades with
    | error e =>
      rw [hc] at h
      exact absurd h (by simp)
    | ok ab =>
      obtain ⟨a, b⟩ := ab
      rw [hc] at h
      simp only [Except.ok.injEq] at h
      rw [← h]

/-- Witness for C10 at the sample trade. -/
theorem getUSDTRate_fixed_pair_witness :
    ({ tradingPair := "USDT/RUB", askPrice := 325/4, bidPrice := 325/4,
       timestamp := 1753726934 } : Rate).tradingPair = "USDT/RUB" :=
  getUSDTRate_fixed_pair [sampleTrade "81.25" "2025-07-28T21:22:14+03:00"] 42 _
    getUSDTRate_eval_sample

/-- RateRecord from internal/database/database.go: one row of the rates
table. -/
structure RateRecord where
  id : Int
  tradingPair : String
  askPrice : ℚ
  bidPrice : ℚ
  timestamp : ℚ
  createdAt : ℚ
deriving Repr, DecidableEq, Inhabited

/-- State of the rates table together with the next value of the id
sequence of the auto-increment primary key. -/
structure DbState where
  rows : List RateRecord
  nextId : Int
deriving Repr, DecidableEq

/-- Database.SaveRate (database.go lines 44 to 71): INSERT INTO rates
RETURNING id followed by Scan into record.ID.  The writeOk flag models
whether the underlying write succeeds; on failure neither the table nor
the record changes and the save error is returned.  The returned record
is the state of the Go record after the call (SaveRate receives a pointer
and mutates only its ID, on success). -/
def saveRate (st : DbState) (writeOk : Bool) (record : RateRecord) :
    DbState × RateRecord × Option String :=
  if writeOk then
    ({ rows := st.rows ++ [{ record with id := st.nextId }], nextId := st.nextId + 1 },
     { record with id := st.nextId }, none)
  else
    (st, record, some "failed to save rate")

/-- Rows of the rates table whose trading_pair equals pair: the WHERE
clause of GetLatestRate. -/
def matchingRows (rows : List RateRecord) (pair : String) : List RateRecord :=
  rows.filter (fun r => decide (r.tradingPair = pair))

/-- The ORDER BY created_at DESC ordering of GetLatestRate. -/
def descRecord : RateRecord → RateRecord → Prop := fun a b => b.createdAt ≤ a.createdAt

instance : DecidableRel descRecord :=
  fun a b => inferInstanceAs (Decidable (b.createdAt ≤ a.createdAt))

instance : IsTotal RateRecord descRecord := ⟨fun a b => le_total b.createdAt a.createdAt⟩

instance : IsTrans RateRecord descRecord := ⟨fun _ _ _ h1 h2 => le_trans h2 h1⟩

/-- Sorts table rows by created_at descending. -/
def sortRowsDesc (l : List RateRecord) : List RateRecord :=
  List.insertionSort descRecord l

/-- Error result of GetLatestRate: sql.ErrNoRows becomes the error with
message "no rate found for trading pair: " followed by the pair. -/
inductive DbError where
  | notFound (pair : String)
deriving Repr, DecidableEq

/-- Database.GetLatestRate (database.go lines 73 to 99): SELECT the rows
with the given trading_pair, ORDER BY created_at DESC, LIMIT 1; an empty
result set becomes the not-found error naming the pair. -/
def getLatestRate (rows : List RateRecord) (pair : String) : Except DbError RateRecord :=
  match sortRowsDesc (matchingRows rows pair) with
  | [] => .error (DbError.notFound pair)
  | r :: _ => .ok r

theorem sortedDescRecord_head_ub (a : RateRecord) (l : List RateRecord)
    (h : List.Sorted descRecord (a :: l)) : ∀ x ∈ a :: l, x.createdAt ≤ a.createdAt := by
  intro x hx
  rcases List.mem_cons.mp hx with rfl | hx2
  · exact le_refl _
  · exact List.rel_of_sorted_cons h x hx2

theorem sortRowsDesc_perm (l : List RateRecord) : List.Perm (sortRowsDesc l) l :=
  List.perm_insertionSort descRecord l

theorem sortRowsDesc_sorted (l : List RateRecord) : List.Sorted descRecord (sortRowsDesc l) :=
  List.sorted_insertionSort descRecord l

/-- C8: when the store holds no row for the queried pair, GetLatestRate
fails with the not-found error naming the pair; when at least one row for
the pair exists it succeeds and returns a row for the pair whose
created_at (persistence time) is greatest. -/
theorem getLatestRate_spec (rows : List RateRecord) (pair : String) :
    (matchingRows rows pair = [] →
      getLatestRate rows pair = .error (DbError.notFound pair)) ∧
    (matchingRows rows pair ≠ [] → ∃ r, getLatestRate rows pair = .ok r ∧
      r ∈ matchingRows rows pair ∧ r.tradingPair = pair ∧
      ∀ s ∈ matchingRows rows pair, s.createdAt ≤ r.createdAt) := by
  constructor
  · intro hempty
    unfold getLatestRate
    rw [hempty]
    rfl
  · intro hne
    have hsne : sortRowsDesc (matchingRows rows pair) ≠ [] := by
      intro h0
      have hl := (sortRowsDesc_perm (matchingRows rows pair)).length_eq
      rw [h0] at hl
      simp only [List.length_nil] at hl
      exact hne (List.length_eq_zero.mp hl.symm)
    obtain ⟨r, t, hs⟩ : ∃ r t, sortRowsDesc (matchingRows rows pair) = r :: t := by
      cases hcase : sortRowsDesc (matchingRows rows pair) with
      | nil => exact absurd hcase hsne
      | cons r t => exact ⟨r, t, rfl⟩
    have hmem_iff : ∀ x : RateRecord, x ∈ r :: t ↔ x ∈ matchingRows rows pair := by
      intro x
      rw [← hs]
      exact (sortRowsDesc_perm _).mem_iff
    have hr_mem : r ∈ matchingRows rows pair := (hmem_iff r).mp (by simp)
    have hsorted : List.Sorted descRecord (r :: t) := by
      rw [← hs]
      exact sortRowsDesc_sorted _
    refine ⟨r, ?_, hr_mem, ?_, ?_⟩
    · unfold getLatestRate
      rw [hs]
    · have := List.mem_filter.mp hr_mem
      simpa using this.2
    · intro s hsmem
      exact sortedDescRecord_head_ub r t hsorted s ((hmem_iff s).mpr hsmem)

/-- Witness for C8 at the empty store. -/
theorem getLatestRate_spec_witness :
    getLatestRate [] "USDT/RUB" = .error (DbError.notFound "USDT/RUB") :=
  (getLatestRate_spec [] "USDT/RUB").1 rfl

/-- C9: a successful SaveRate call sets only the ID field of the passed
record (to the store-generated identifier) and leaves TradingPair,
AskPrice, BidPrice, Timestamp and CreatedAt unchanged; a failed call
leaves the record entirely unchanged. -/
theorem saveRate_frame (st : DbState) (writeOk : Bool) (record : RateRecord) :
    (writeOk = true →
      (saveRate st writeOk record).2.1.id = st.nextId ∧
      (saveRate st writeOk record).2.1.tradingPair = record.tradingPair ∧
      (saveRate st writeOk record).2.1.askPrice = record.askPrice ∧
      (saveRate st writeOk record).2.1.bidPrice = record.bidPrice ∧
      (saveRate st writeOk record).2.1.timestamp = record.timestamp ∧
      (saveRate st writeOk record).2.1.createdAt = record.createdAt) ∧
    (writeOk = false → (saveRate st writeOk record).2.1 = record) := by
  constructor
  · intro hw
    subst hw
    simp [saveRate]
  · intro hw
    subst hw
    simp [saveRate]

/-- Witness for C9 at a concrete store state and record. -/
theorem saveRate_frame_witness :
    (saveRate ⟨[], 1⟩ true ⟨0, "USDT/RUB", 81, 81, 0, 0⟩).2.1.tradingPair = "USDT/RUB" :=
  (((saveRate_frame ⟨[], 1⟩ true ⟨0, "USDT/RUB", 81, 81, 0, 0⟩).1 rfl).2.1)

/-- Outcome of a dependency probe: ok models a nil error, fail carries
the error text. -/
inductive ProbeResult where
  | ok
  | fail (msg : String)
deriving Repr, DecidableEq

/-- HealthcheckResp from proto/v1/rate-service.proto: a status label and
a human-readable message. -/
structure HealthcheckResp where
  status : String
  message : String
deriving Repr, DecidableEq

/-- RateServiceServer.Healthcheck (server.go lines 91 to 122) as a
function of the two probe outcomes.  A store (database) probe failure
returns the unhealthy payload together with a call-level error, and the
client probe is not consulted; otherwise a Grinex client probe failure
downgrades the status to degraded with a nil call-level error; otherwise
the fixed healthy payload is returned.  The second component models the
error return value of the handler (none is a nil error). -/
def healthcheck (dbProbe : ProbeResult) (grinexProbe : ProbeResult) :
    HealthcheckResp × Option String :=
  match dbProbe with
  | .fail e =>
    ({ status := "unhealthy", message := "Database health check failed: " ++ e },
     some ("database health check failed: " ++ e))
  | .ok =>
    match grinexProbe with
    | .fail e =>
      ({ status := "degraded", message := "Grinex API health check failed: " ++ e }, none)
    | .ok => ({ status := "healthy", message := "Service is healthy" }, none)

/-- C1: checkHealth is the two-input combinator of the spec: a store
probe failure yields status unhealthy and a call-level error whatever the
client probe outcome; store success with client failure yields status
degraded and a successful call; two successes yield the fixed healthy
payload and a successful call. -/
theorem healthcheck_combinator (dbProbe grinexProbe : ProbeResult) :
    (∀ e, dbProbe = ProbeResult.fail e →
      (healthcheck dbProbe grinexProbe).1.status = "unhealthy" ∧
      (healthcheck dbProbe grinexProbe).2 ≠ none) ∧
    (∀ e, dbProbe = ProbeResult.ok → grinexProbe = ProbeResult.fail e →
      (healthcheck dbProbe grinexProbe).1.status = "degraded" ∧
      (healthcheck dbProbe grinexProbe).2 = none) ∧
    (dbProbe = ProbeResult.ok → grinexProbe = ProbeResult.ok →
      (healthcheck dbProbe grinexProbe).1 =
        { status := "healthy", message := "Service is healthy" } ∧
      (healthcheck dbProbe grinexProbe).2 = none) := by
  cases dbProbe <;> cases grinexProbe <;> simp [healthcheck]

/-- Witness for C1 with a failing store probe and a succeeding client
probe. -/
theorem healthcheck_combinator_witness :
    (healthcheck (ProbeResult.fail "connection refused") ProbeResult.ok).1.status =
      "unhealthy" ∧
    (healthcheck (ProbeResult.fail "connection refused") ProbeResult.ok).2 ≠ none :=
  (healthcheck_combinator (ProbeResult.fail "connection refused") ProbeResult.ok).1
    "connection refused" rfl

/-- GetRatesResp from proto/v1/rate-service.proto. -/
structure GetRatesResp where
  tradingPair : String
  askPrice : ℚ
  bidPrice : ℚ
  timestamp : ℚ
deriving Repr, DecidableEq

/-- RateServiceServer.GetRates (server.go lines 57 to 89) as a function
of the fetch outcome, the store state and the write outcome.  A fetch
error aborts the call; otherwise a RateRecord with CreatedAt = now is
built from the fetched rate and passed to SaveRate; a save error aborts
the call; otherwise the response is built from the fetched rate.  The
first component is the store state after the call. -/
def getRates (fetchResult : Except GetRateError Rate) (st : DbState) (writeOk : Bool)
    (now : ℚ) : DbState × Except String GetRatesResp :=
  match fetchResult with
  | .error _ => (st, .error "failed to get rate from Grinex")
  | .ok rate =>
    let dbRecord : RateRecord :=
      { id := 0, tradingPair := rate.tradingPair, askPrice := rate.askPrice,
        bidPrice := rate.bidPrice, timestamp := rate.timestamp, createdAt := now }
    let saved := saveRate st writeOk dbRecord
    match saved.2.2 with
    | some _ => (saved.1, .error "failed to save rate to database")
    | none =>
      (saved.1, .ok { tradingPair := rate.tradingPair, askPrice := rate.askPrice,
                      bidPrice := rate.bidPrice, timestamp := rate.timestamp })

/-- C3: GetRates is all-or-nothing: when the fetch succeeds but the store
write fails the call returns an error and no quote, and a quote is
returned to the caller exactly when both the fetch and the persistence
succeed, in which case it is the fetched quote. -/
theorem getRates_all_or_nothing (fetchResult : Except GetRateError Rate) (st : DbState)
    (writeOk : Bool) (now : ℚ) :
    (∀ rate, fetchResult = .ok rate → writeOk = false →
      (getRates fetchResult st writeOk now).2 = .error "failed to save rate to database") ∧
    (∀ resp, (getRates fetchResult st writeOk now).2 = .ok resp →
      writeOk = true ∧ ∃ rate, fetchResult = .ok rate ∧
        resp.tradingPair = rate.tradingPair ∧ resp.askPrice = rate.askPrice ∧
        resp.bidPrice = rate.bidPrice ∧ resp.timestamp = rate.timestamp) := by
  cases fetchResult with
  | error e => simp [getRates]
  | ok rate =>
    cases writeOk with
    | false => simp [getRates, saveRate]
    | true =>
      constructor
      · intro rate2 _ hfalse
        exact Bool.noConfusion hfalse
      · intro resp hresp
        simp only [getRates, saveRate, if_pos] at hresp
        simp only [Except.ok.injEq] at hresp
        refine ⟨rfl, rate, rfl, ?_⟩
        rw [← hresp]
        exact ⟨rfl, rfl, rfl, rfl⟩

/-- Witness for C3: a successful fetch followed by a failing write yields
the save error and no quote. -/
theorem getRates_all_or_nothing_witness :
    (getRates (.ok { tradingPair := "USDT/RUB", askPrice := 81, bidPrice := 81,
                     timestamp := 0 }) ⟨[], 1⟩ false 0).2 =
      .error "failed to save rate to database" :=
  (getRates_all_or_nothing (.ok { tradingPair := "USDT/RUB", askPrice := 81, bidPrice := 81,
                                  timestamp := 0 }) ⟨[], 1⟩ false 0).1 _ rfl rfl
